import Mathlib

/-!
Verification of the PrusaSlicer purge-shift post-processing script
(`scripts/purgeShift_x_mk4s.py`).

The script is embedded shallowly: G-code lines are lists of characters,
Python floats are rationals, and the regex-based token rewriting
(`\bX(-?\d+\.?\d*)`, `\bY(-?\d+\.?\d*)`) is implemented directly as
recursive scanners with the same left-to-right, non-overlapping match
semantics.  Fallible Python operations (`float(...)` on a non-numeral,
the missing-coordinate exit) are modelled with `Except`.
-/

namespace PurgeShift

/-- Characters of a string literal, used to write G-code lines. -/
def lc (s : String) : List Char := s.data

/-- Whitespace characters recognised by Python's `str.strip` / `str.split`
(ASCII fragment). -/
def pyIsSpace (c : Char) : Bool :=
  c = ' ' || c = '\t' || c = '\n' || c = '\r' || c = '\x0b' || c = '\x0c'

/-- Regex word characters (`\w`, ASCII fragment), used for `\b` boundaries. -/
def isWordChar (c : Char) : Bool := c.isAlphanum || c = '_'

/-- Python `str.strip()`: drop whitespace from both ends. -/
def pyStrip (l : List Char) : List Char :=
  ((l.dropWhile pyIsSpace).reverse.dropWhile pyIsSpace).reverse

/-- Python `str.upper()` (ASCII fragment). -/
def upTo (l : List Char) : List Char := l.map Char.toUpper

/-- `s.upper().startswith(p)` for an already-uppercase pattern `p`. -/
def upperStartsWith (l : List Char) (p : List Char) : Bool :=
  p.isPrefixOf (upTo l)

/-- Value of a digit string (most significant first). -/
def digitsToNat (ds : List Char) : ℕ :=
  ds.foldl (fun a c => 10 * a + (c.toNat - 48)) 0

/-- Value of a fractional digit string: `fracVal "25" = 25/100`. -/
def fracVal (ds : List Char) : ℚ :=
  (digitsToNat ds : ℚ) / 10 ^ ds.length

/-- Body of a match of `\d+\.?\d*` at the head of `cs`: on success returns
the value, whether the last matched character was a word character (a digit
rather than a trailing dot), and the remainder of the string. -/
def mntBody (cs : List Char) : Option (ℚ × Bool × List Char) :=
  let ds := cs.takeWhile Char.isDigit
  let r1 := cs.dropWhile Char.isDigit
  if ds.isEmpty then none
  else if r1.head? = some '.' then
    some ((digitsToNat ds : ℚ) + fracVal (r1.tail.takeWhile Char.isDigit),
          !(r1.tail.takeWhile Char.isDigit).isEmpty,
          r1.tail.dropWhile Char.isDigit)
  else some ((digitsToNat ds : ℚ), true, r1)

/-- Match of the group `-?\d+\.?\d*` at the head of `cs` (the part of the
`X`/`Y` patterns after the axis letter). -/
def matchNumTail (cs : List Char) : Option (ℚ × Bool × List Char) :=
  if cs.head? = some '-' then
    match mntBody cs.tail with
    | some (v, w, r) => some (-v, w, r)
    | none => none
  else mntBody cs

/-- `re.search` for `\bA(-?\d+\.?\d*)` with `IGNORECASE`, where `A` is the
uppercase axis letter `t`: value of the group of the first match.  The
boolean argument records whether the previous character was a word
character (for the `\b` boundary); it starts as `false`. -/
def findNum (t : Char) : Bool → List Char → Option ℚ
  | _, [] => none
  | prevW, c :: rest =>
    if Char.toUpper c = t ∧ prevW = false then
      match matchNumTail rest with
      | some (v, _, _) => some v
      | none => findNum t (isWordChar c) rest
    else findNum t (isWordChar c) rest

/-- One pass of `x_pattern.sub(f, ·)` for `x_pattern = \bX(-?\d+\.?\d*)`
(`IGNORECASE`): scan left to right; at each position where the previous
character is not a word character and the current character is `X`/`x`
followed by a number, replace the whole match by `f value` and continue
after it; otherwise keep the character.  `fuel` bounds the recursion and is
adequate whenever `l.length ≤ fuel`. -/
def subXAux (f : ℚ → List Char) : ℕ → Bool → List Char → List Char
  | 0, _, l => l
  | _ + 1, _, [] => []
  | fuel + 1, prevW, c :: rest =>
    if Char.toUpper c = 'X' ∧ prevW = false then
      match matchNumTail rest with
      | some (v, w, r) => f v ++ subXAux f fuel w r
      | none => c :: subXAux f fuel (isWordChar c) rest
    else c :: subXAux f fuel (isWordChar c) rest

/-- `x_pattern.sub(f, l)`: substitute every match of `\bX(-?\d+\.?\d*)`. -/
def x_sub (f : ℚ → List Char) (l : List Char) : List Char :=
  subXAux f l.length false l

/-- Decimal digit string of a natural number, most significant digit first.
`fuel` bounds the recursion; `fuel = n` is always sufficient because the
quotient `n / 10` drops by at least one per step once `n ≥ 10`. -/
def natStrAux : ℕ → ℕ → List Char
  | 0, n => [Char.ofNat (48 + n % 10)]
  | fuel + 1, n =>
    if n < 10 then [Char.ofNat (48 + n)]
    else natStrAux fuel (n / 10) ++ [Char.ofNat (48 + n % 10)]

/-- Decimal digit string of a natural number (`str(n)` in Python). -/
def natStr (n : ℕ) : List Char := natStrAux n n

/-- Round-half-to-even to an integer, as Python's built-in `round` does
(idealised over exact rationals). -/
def rheInt (q : ℚ) : ℤ :=
  let n := ⌊q⌋
  if q - n < 1/2 then n
  else if 1/2 < q - n then n + 1
  else if n % 2 = 0 then n else n + 1

/-- Python `round(q, 1)`: round to one decimal place, ties to even. -/
def pyRound1 (q : ℚ) : ℚ := (rheInt (q * 10) : ℚ) / 10

/-- Decimal rendering of an integer number of tenths, as Python formats a
float produced by `round(_, 1)`: sign, integer part, dot, one digit. -/
def renderTenths (n : ℤ) : List Char :=
  (if n < 0 then ['-'] else []) ++ natStr (n.natAbs / 10)
    ++ '.' :: [Char.ofNat (48 + n.natAbs % 10)]

/-- Python `f"{q}"` for a float `q` that is an exact multiple of `1/10`
(every value produced by `round(_, 1)` in this script). -/
def fmt1 (q : ℚ) : List Char := renderTenths (rheInt (q * 10))

/-- `shift_x` of the script: replacement for one `X`-token of value `v`,
`f"X{round(x_val + offset, 1)}"`. -/
def shift_x (offset : ℚ) (v : ℚ) : List Char :=
  'X' :: fmt1 (pyRound1 (v + offset))

/-- `shift_flip_x` of the script: replacement for one `X`-token of value `v`
inside the purge block, `f"X{round(offset + 66 - x_val, 1)}"` when
reversing, else `f"X{round(x_val + offset, 1)}"`. -/
def shift_flip_x (offset : ℚ) (reverse : Bool) (v : ℚ) : List Char :=
  if reverse then 'X' :: fmt1 (pyRound1 (offset + 66 - v))
  else 'X' :: fmt1 (pyRound1 (v + offset))

/-- The purge-direction decision of the script:
`reverse_purge = dist_upper > dist_lower` for
`purge_lower_x = offset + 0`, `purge_upper_x = offset + 66`. -/
def reverse_purge (first_x : ℚ) (offset : ℚ) : Bool :=
  let purge_lower_x := offset + 0
  let purge_upper_x := offset + 66
  let dist_lower := |first_x - purge_lower_x|
  let dist_upper := |first_x - purge_upper_x|
  decide (dist_upper > dist_lower)

/-- Exponent part of a Python float literal: optional sign and digits,
consuming the whole remainder.  Returns the scaling factor. -/
def expVal? (s : List Char) : Option ℚ :=
  let t := if s.head? = some '-' ∨ s.head? = some '+' then s.tail else s
  let ds := t.takeWhile Char.isDigit
  if ds.isEmpty then none
  else if (t.dropWhile Char.isDigit).isEmpty then
    if s.head? = some '-' then some ((1 : ℚ) / 10 ^ digitsToNat ds)
    else some ((10 : ℚ) ^ digitsToNat ds)
  else none

/-- Python `float(s)` on decimal literals (sign, digits, optional fraction,
optional exponent; surrounding whitespace ignored): `none` models the
`ValueError` raised on any other input. -/
def pyFloat? (s : List Char) : Option ℚ :=
  let t := pyStrip s
  let sgn : ℚ := if t.head? = some '-' then -1 else 1
  let t1 := if t.head? = some '-' ∨ t.head? = some '+' then t.tail else t
  let ds := t1.takeWhile Char.isDigit
  let r1 := t1.dropWhile Char.isDigit
  let mant? : Option (ℚ × List Char) :=
    if ds.isEmpty then
      if r1.head? = some '.' then
        if (r1.tail.takeWhile Char.isDigit).isEmpty then none
        else some (fracVal (r1.tail.takeWhile Char.isDigit),
                   r1.tail.dropWhile Char.isDigit)
      else none
    else
      if r1.head? = some '.' then
        some ((digitsToNat ds : ℚ) + fracVal (r1.tail.takeWhile Char.isDigit),
              r1.tail.dropWhile Char.isDigit)
      else some ((digitsToNat ds : ℚ), r1)
  match mant? with
  | none => none
  | some (m, rest) =>
    if rest.isEmpty then some (sgn * m)
    else if rest.head? = some 'e' ∨ rest.head? = some 'E' then
      match expVal? rest.tail with
      | some e => some (sgn * m * e)
      | none => none
    else none

/-- Python `str.split()` (no separator): maximal runs of non-whitespace.
`fuel` bounds the recursion; `l.length` is always sufficient. -/
def pyWordsAux : ℕ → List Char → List (List Char)
  | 0, _ => []
  | fuel + 1, l =>
    match l with
    | [] => []
    | c :: cs =>
      if pyIsSpace c then pyWordsAux fuel cs
      else (c :: cs.takeWhile (fun d => !pyIsSpace d))
          :: pyWordsAux fuel (cs.dropWhile (fun d => !pyIsSpace d))

/-- Python `line.split()`. -/
def pyWords (l : List Char) : List (List Char) := pyWordsAux l.length l

/-- How a run of the script can fail after the file has been read:
the handled "failed to locate start coordinates" exit, or an unhandled
Python exception (e.g. `float()` on a non-numeral). -/
inductive ScriptError where
  | geometryNotFound
  | uncaughtExn
deriving DecidableEq, Repr

instance {ε α : Type} [DecidableEq ε] [DecidableEq α] : DecidableEq (Except ε α) :=
  fun a b =>
    match a, b with
    | .error e, .error f =>
      if h : e = f then isTrue (by rw [h]) else isFalse fun hh => h (Except.error.inj hh)
    | .ok x, .ok y =>
      if h : x = y then isTrue (by rw [h]) else isFalse fun hh => h (Except.ok.inj hh)
    | .error _, .ok _ => isFalse fun hh => Except.noConfusion hh
    | .ok _, .error _ => isFalse fun hh => Except.noConfusion hh

/-- The extraction `x_val = float(parts[1][1:])` applied to a matched line:
second whitespace-delimited token, first character stripped, parsed as a
float.  A missing token or unparsable remainder is an uncaught exception. -/
def extract_start_x (l : List Char) : Except ScriptError ℚ :=
  match (pyWords l).get? 1 with
  | none => .error .uncaughtExn
  | some t =>
    match pyFloat? (t.drop 1) with
    | some v => .ok v
    | none => .error .uncaughtExn

/-- The object-start scan of the script: first line with
`line.upper().startswith("G1 X")` and a `\bY(...)` match of positive value;
extract its X value positionally.  No such line is the handled
"coordinate not found" exit. -/
def first_object_start_x : List (List Char) → Except ScriptError ℚ
  | [] => .error .geometryNotFound
  | l :: ls =>
    if upperStartsWith l (lc "G1 X") then
      match findNum 'Y' false l with
      | some y => if y > 0 then extract_start_x l else first_object_start_x ls
      | none => first_object_start_x ls
    else first_object_start_x ls

/-- The guard of the object-start scan as a single predicate. -/
def isObjStart (l : List Char) : Bool :=
  upperStartsWith l (lc "G1 X") &&
    (match findNum 'Y' false l with
     | some y => decide (y > 0)
     | none => false)

/-- Rewriter state: the two booleans of the script. -/
structure RState where
  in_purge_block : Bool
  purge_block_processed : Bool
deriving DecidableEq, Repr

/-- Entry test for the purge block: `stripped.upper().startswith("G0")` with
a negative `Y` value on the stripped line. -/
def isPurgeEntry (stripped : List Char) : Bool :=
  upperStartsWith stripped (lc "G0") &&
    (match findNum 'Y' false stripped with
     | some y => decide (y < 0)
     | none => false)

/-- Probe-line test: `stripped.upper().startswith(("G1", "G29"))`. -/
def isProbeLine (stripped : List Char) : Bool :=
  upperStartsWith stripped (lc "G1") || upperStartsWith stripped (lc "G29")

/-- End-of-purge test: `stripped.startswith("G1")` (case-sensitive!) with a
positive `Y` value. -/
def isPurgeEnd (stripped : List Char) : Bool :=
  List.isPrefixOf (lc "G1") stripped &&
    (match findNum 'Y' false stripped with
     | some y => decide (y > 0)
     | none => false)

/-- One iteration of the script's rewrite loop on one line: returns the new
state and the (possibly rewritten) line that is appended to the output. -/
def stepLine (offset : ℚ) (reverse : Bool) (st : RState) (line0 : List Char) :
    RState × List Char :=
  let stripped := pyStrip line0
  if st.purge_block_processed then (st, line0)
  else
    let inP : Bool := st.in_purge_block || isPurgeEntry stripped
    let line1 : List Char :=
      if !st.in_purge_block && !(upperStartsWith stripped (lc "G0"))
          && isProbeLine stripped then
        x_sub (shift_x offset) line0
      else line0
    if inP then
      let line2 : List Char :=
        if upperStartsWith stripped (lc "G0") then
          x_sub (shift_flip_x offset reverse) line1
        else line1
      if isPurgeEnd stripped then (⟨false, true⟩, line2)
      else (⟨true, false⟩, line2)
    else (⟨false, false⟩, line1)

/-- The full rewrite pass over the line list, threading the state. -/
def processLines (offset : ℚ) (reverse : Bool) :
    RState → List (List Char) → List (List Char)
  | _, [] => []
  | st, l :: ls =>
    let p := stepLine offset reverse st l
    p.2 :: processLines offset reverse p.1 ls

/-- The whole in-memory transformation for a chosen purge slot: compute the
offset, find the first object's start X (failures abort before anything is
written), decide the direction, rewrite all lines.  An `.ok` result is the
content of the single final file overwrite. -/
def runScript (slot : ℕ) (lines : List (List Char)) :
    Except ScriptError (List (List Char)) :=
  let offset : ℚ := (slot : ℚ) * 46
  match first_object_start_x lines with
  | .error e => .error e
  | .ok x =>
    let rev := reverse_purge x offset
    .ok (processLines offset rev ⟨false, false⟩ lines)

/-- Rank of a rewriter state along the intended progression
Outside-Purge-Block → In-Purge-Block → Purge-Processed. -/
def rank (st : RState) : ℕ :=
  (if st.in_purge_block then 1 else 0) + (if st.purge_block_processed then 2 else 0)

/-- Word-character status of the last character of `cs` (or `b` if `cs` is
empty): the `\b`-tracking state after scanning past `cs`. -/
def wordAfter (b : Bool) : List Char → Bool
  | [] => b
  | c :: cs => wordAfter (isWordChar c) cs

/-- The sequence of rewriter states along a pass: the state before each
line, and the final state. -/
def stateTrace (offset : ℚ) (reverse : Bool) :
    RState → List (List Char) → List RState
  | st, [] => [st]
  | st, l :: ls =>
    st :: stateTrace offset reverse (stepLine offset reverse st l).1 ls

/-- The per-line rewrite performed while never entering the purge block:
probe lines (`G1`/`G29`, not `G0`) get all X tokens shifted. -/
def probe_rewrite (offset : ℚ) (l : List Char) : List Char :=
  if !(upperStartsWith (pyStrip l) (lc "G0")) && isProbeLine (pyStrip l) then
    x_sub (shift_x offset) l
  else l

/-- Scenario A of the spec: the first in-purge rapid move is `G0 X10 Y-5`
and the first object starts at `G1 X80 Y10`. -/
def demoA : List (List Char) :=
  [lc "G29\n", lc "G0 X10 Y-5\n", lc "G1 X80 Y10 E2\n", lc "G1 X100 Y50\n"]

end PurgeShift

namespace PurgeShift

-- sanity checks on the matcher
example : findNum 'Y' false (lc "G0 X10 Y-5\n") = some (-5) := by
  with_unfolding_all decide
example : findNum 'Y' false (lc "G1 X80.3 Y10 E2") = some 10 := by
  with_unfolding_all decide
example : findNum 'Y' false (lc "G1 X80.3 AY10") = none := by
  with_unfolding_all decide
example : matchNumTail (lc "10.25 Z9") = some (41/4, true, lc " Z9") := by
  with_unfolding_all decide
example : matchNumTail (lc "-7.") = some (-7, false, []) := by
  with_unfolding_all decide
example : matchNumTail (lc "-x") = none := by with_unfolding_all decide

-- sanity checks on parsing, rounding and formatting
example : pyFloat? (lc "80") = some 80 := by with_unfolding_all decide
example : pyFloat? (lc "-12.5") = some (-25/2) := by with_unfolding_all decide
example : pyFloat? (lc " 1.5e2 ") = some 150 := by with_unfolding_all decide
example : pyFloat? (lc "") = none := by with_unfolding_all decide
example : pyFloat? (lc "Y5") = none := by with_unfolding_all decide
example : natStr 102 = lc "102" := by with_unfolding_all decide
example : fmt1 (pyRound1 (10 + 92)) = lc "102.0" := by with_unfolding_all decide
example : shift_flip_x 92 true 10 = lc "X148.0" := by with_unfolding_all decide
example : pyRound1 (25/100) = 2/10 := by with_unfolding_all decide
example : pyRound1 (35/100) = 4/10 := by with_unfolding_all decide
example : reverse_purge 80 92 = true := by with_unfolding_all decide
example : pyWords (lc "G1 X80 Y10 E2\n") = [lc "G1", lc "X80", lc "Y10", lc "E2"] := by
  with_unfolding_all decide
example : x_sub (shift_x 92) (lc "G0 X10 Y-5\n") = lc "G0 X102.0 Y-5\n" := by
  with_unfolding_all decide

example :
    runScript 2 demoA =
      .ok [lc "G29\n", lc "G0 X148.0 Y-5\n", lc "G1 X80 Y10 E2\n",
           lc "G1 X100 Y50\n"] := by
  with_unfolding_all decide

/-- Length bound for `mntBody`: the remainder is no longer than the input. -/
theorem mntBody_length_le {cs : List Char} {v : ℚ} {w : Bool} {r : List Char}
    (h : mntBody cs = some (v, w, r)) : r.length ≤ cs.length := by
  simp only [mntBody] at h
  split at h
  · exact absurd h (by simp)
  · split at h
    · simp only [Option.some.injEq, Prod.mk.injEq] at h
      obtain ⟨-, -, hr⟩ := h
      subst hr
      calc ((cs.dropWhile Char.isDigit).tail.dropWhile Char.isDigit).length
          ≤ (cs.dropWhile Char.isDigit).tail.length := (List.dropWhile_sublist _).length_le
        _ ≤ (cs.dropWhile Char.isDigit).length := (List.length_tail _) ▸ Nat.sub_le _ _
        _ ≤ cs.length := (List.dropWhile_sublist _).length_le
    · simp only [Option.some.injEq, Prod.mk.injEq] at h
      obtain ⟨-, -, hr⟩ := h
      subst hr
      exact (List.dropWhile_sublist _).length_le

/-- Length bound for `matchNumTail`. -/
theorem matchNumTail_length_le {cs : List Char} {v : ℚ} {w : Bool} {r : List Char}
    (h : matchNumTail cs = some (v, w, r)) : r.length ≤ cs.length := by
  unfold matchNumTail at h
  split at h
  · cases hb : mntBody cs.tail with
    | none => rw [hb] at h; exact absurd h (by simp)
    | some p =>
      obtain ⟨v', w', r'⟩ := p
      rw [hb] at h
      simp only [Option.some.injEq, Prod.mk.injEq] at h
      obtain ⟨-, -, hr⟩ := h
      subst hr
      calc r'.length ≤ cs.tail.length := mntBody_length_le hb
        _ ≤ cs.length := (List.length_tail _) ▸ Nat.sub_le _ _
  · exact mntBody_length_le h

/-- A line whose uppercased strip starts with `G0` cannot (case-sensitively)
start with `G1`: the entry test and the end test of the purge block are
mutually exclusive on a single line. -/
theorem upperG0_not_startG1 {s : List Char}
    (h : upperStartsWith s (lc "G0") = true) :
    List.isPrefixOf (lc "G1") s = false := by
  cases s with
  | nil => simp [upperStartsWith, upTo, lc] at h
  | cons c1 t =>
    cases t with
    | nil => simp [upperStartsWith, upTo, lc, List.isPrefixOf] at h
    | cons c2 t2 =>
      simp only [upperStartsWith, upTo, lc, List.map_cons, List.isPrefixOf,
        Bool.and_eq_true, beq_iff_eq] at h ⊢
      by_cases hc : c2 = '1'
      · subst hc
        exact absurd h.2.1 (by decide)
      · have h1 : ('1' == c2) = false := by
          simp only [beq_eq_false_iff_ne, ne_eq]
          exact fun hh => hc hh.symm
        simp [h1]

end PurgeShift

namespace PurgeShift

/-- Claim C1 (counterexample): with offset 92 the object start X80 is
strictly closer to the offset than to offset+66, yet `reverse_purge` is
`true`, and in scenario A the purge-start line becomes `G0 X148.0 Y-5`,
not `G0 X102.0 Y-5` as the claim states. -/
theorem claim_C1_counterexample :
    |(80 : ℚ) - 92| < |(80 : ℚ) - (92 + 66)|
    ∧ reverse_purge 80 92 = true
    ∧ runScript 2 demoA =
        .ok [lc "G29\n", lc "G0 X148.0 Y-5\n", lc "G1 X80 Y10 E2\n",
             lc "G1 X100 Y50\n"]
    ∧ lc "G0 X148.0 Y-5\n" ≠ lc "G0 X102.0 Y-5\n" := by
  with_unfolding_all decide

/-- Claim C1 (amended): if the object-start X is strictly closer to
`offset` than to `offset + 66` the direction flag is `true` (reverse), and
if it is strictly closer to `offset + 66` the flag is `false` (forward);
in scenario A (offset 92, object start X80, first in-purge line
`G0 X10 Y-5`) the flag is true and that line is rewritten to
`G0 X148.0 Y-5`. -/
theorem claim_C1_amended :
    (∀ x offset : ℚ, |x - offset| < |x - (offset + 66)| →
        reverse_purge x offset = true)
    ∧ (∀ x offset : ℚ, |x - (offset + 66)| < |x - offset| →
        reverse_purge x offset = false)
    ∧ runScript 2 demoA =
        .ok [lc "G29\n", lc "G0 X148.0 Y-5\n", lc "G1 X80 Y10 E2\n",
             lc "G1 X100 Y50\n"] := by
  refine ⟨?_, ?_, by with_unfolding_all decide⟩
  · intro x offset h
    simp only [reverse_purge, add_zero, gt_iff_lt, decide_eq_true_eq]
    exact h
  · intro x offset h
    simp only [reverse_purge, add_zero, gt_iff_lt, decide_eq_false_iff_not]
    exact fun hc => absurd h (not_lt.mpr hc.le)

theorem claim_C1_amended_witness :
    reverse_purge 80 92 = true ∧ reverse_purge 170 92 = false :=
  ⟨claim_C1_amended.1 80 92 (by with_unfolding_all decide),
   claim_C1_amended.2.1 170 92 (by with_unfolding_all decide)⟩

/-- Claim C2: the direction flag is `true` iff the distance from the found
object-start X to `offset + 66` strictly exceeds its distance to `offset`;
at equal distances the flag is `false`, because the comparison is strict. -/
theorem claim_C2 (x offset : ℚ) :
    (reverse_purge x offset = true ↔ |x - (offset + 66)| > |x - offset|)
    ∧ (|x - (offset + 66)| = |x - offset| → reverse_purge x offset = false) := by
  constructor
  · simp [reverse_purge]
  · intro h
    simp [reverse_purge, h]

theorem claim_C2_witness : reverse_purge 33 0 = false :=
  (claim_C2 33 0).2 (by with_unfolding_all decide)

/-- Claim C8: the rewrite pass never adds or removes lines — the output has
exactly as many lines as the input, for every offset, direction flag,
starting state and line list. -/
theorem claim_C8 (offset : ℚ) (reverse : Bool) (st : RState)
    (lines : List (List Char)) :
    (processLines offset reverse st lines).length = lines.length := by
  induction lines generalizing st with
  | nil => rfl
  | cons l ls ih => simp [processLines, ih]

/-- Each step weakly increases the state rank. -/
theorem stepLine_rank_mono (offset : ℚ) (reverse : Bool) (st : RState)
    (l : List Char) : rank st ≤ rank (stepLine offset reverse st l).1 := by
  obtain ⟨ip, pp⟩ := st
  cases pp
  · cases ip
    · exact Nat.zero_le _
    · simp only [stepLine, Bool.false_eq_true, if_false, Bool.true_or]
      by_cases hE : isPurgeEnd (pyStrip l) = true <;> simp [hE, rank]
  · simp [stepLine, rank]

/-- The rank is nondecreasing along the whole state trace of a pass. -/
theorem stateTrace_chain (offset : ℚ) (reverse : Bool) :
    ∀ (st : RState) (lines : List (List Char)),
      List.Chain' (fun s s' => rank s ≤ rank s')
        (stateTrace offset reverse st lines) := by
  intro st lines
  induction lines generalizing st with
  | nil => simp [stateTrace]
  | cons l ls ih =>
    obtain ⟨r, hr⟩ : ∃ r, stateTrace offset reverse
        (stepLine offset reverse st l).1 ls
        = (stepLine offset reverse st l).1 :: r := by
      cases ls <;> exact ⟨_, rfl⟩
    have hc := ih (stepLine offset reverse st l).1
    rw [hr] at hc
    simp only [stateTrace, hr]
    exact List.Chain'.cons (stepLine_rank_mono offset reverse st l) hc

/-- Claim C7: the rewrite state machine is monotonic — every step weakly
increases the rank along Outside-Purge-Block (0) → In-Purge-Block (1) →
Purge-Processed (2), so the whole state trace of a forward pass is
nondecreasing and no state is ever revisited; the unused fourth boolean
combination is never produced, once Purge-Processed is reached every line
passes through verbatim with the state unchanged, and a single step never
jumps from Outside-Purge-Block directly to Purge-Processed. -/
theorem claim_C7 (offset : ℚ) (reverse : Bool) :
    (∀ st l, rank st ≤ rank (stepLine offset reverse st l).1)
    ∧ (∀ st l, st ≠ ⟨true, true⟩ →
        (stepLine offset reverse st l).1 ≠ (⟨true, true⟩ : RState))
    ∧ (∀ l, stepLine offset reverse ⟨false, true⟩ l = (⟨false, true⟩, l))
    ∧ (∀ l, (stepLine offset reverse ⟨false, false⟩ l).1 ≠
        (⟨false, true⟩ : RState))
    ∧ (∀ lines, List.Chain' (fun s s' => rank s ≤ rank s')
        (stateTrace offset reverse ⟨false, false⟩ lines)) := by
  have hstep : ∀ st l, st.purge_block_processed = false →
      (stepLine offset reverse st l).1 = ⟨false, true⟩
      ∨ (stepLine offset reverse st l).1 = ⟨true, false⟩
      ∨ (stepLine offset reverse st l).1 = ⟨false, false⟩ := by
    intro st l hp
    simp only [stepLine, hp, Bool.false_eq_true, if_false]
    split
    · split
      · exact Or.inl rfl
      · exact Or.inr (Or.inl rfl)
    · exact Or.inr (Or.inr rfl)
  refine ⟨fun st l => stepLine_rank_mono offset reverse st l, ?_, ?_, ?_,
    fun lines => stateTrace_chain offset reverse ⟨false, false⟩ lines⟩
  · intro st l hne
    obtain ⟨ip, pp⟩ := st
    cases pp
    · rcases hstep ⟨ip, false⟩ l rfl with h | h | h <;> simp [h]
    · cases ip
      · simp [stepLine]
      · exact absurd rfl hne
  · intro l
    simp [stepLine]
  · intro l
    simp only [stepLine, Bool.false_eq_true, if_false, Bool.false_or]
    split
    · rename_i hEntry
      have hG0 : upperStartsWith (pyStrip l) (lc "G0") = true := by
        have h2 := hEntry
        simp only [isPurgeEntry, Bool.and_eq_true] at h2
        exact h2.1
      have hEnd : isPurgeEnd (pyStrip l) = false := by
        simp [isPurgeEnd, upperG0_not_startG1 hG0]
      simp [hEnd]
    · simp

theorem claim_C7_witness :
    (stepLine 0 false ⟨false, false⟩ (lc "G1 X1 Y1\n")).1 ≠
      (⟨true, true⟩ : RState) :=
  (claim_C7 0 false).2.1 ⟨false, false⟩ (lc "G1 X1 Y1\n") (by decide)

/-- Claim C4: a line that triggers the purge-block entry (while
Outside-Purge-Block, a `G0` line with negative Y) is not rewritten by the
probe-line rule; in the same step the state becomes In-Purge-Block and the
very same line is rewritten by the in-purge `G0` rule
(`shift_flip_x` applied to every X token of the original line). -/
theorem claim_C4 (offset : ℚ) (reverse : Bool) (l : List Char) (y : ℚ)
    (hG0 : upperStartsWith (pyStrip l) (lc "G0") = true)
    (hY : findNum 'Y' false (pyStrip l) = some y) (hy : y < 0) :
    stepLine offset reverse ⟨false, false⟩ l =
      (⟨true, false⟩, x_sub (shift_flip_x offset reverse) l) := by
  have hEntry : isPurgeEntry (pyStrip l) = true := by
    simp [isPurgeEntry, hG0, hY, hy]
  have hEnd : isPurgeEnd (pyStrip l) = false := by
    simp [isPurgeEnd, upperG0_not_startG1 hG0]
  simp [stepLine, hEntry, hEnd, hG0]

theorem claim_C4_witness :
    stepLine 92 true ⟨false, false⟩ (lc "G0 X10 Y-5\n") =
      (⟨true, false⟩, x_sub (shift_flip_x 92 true) (lc "G0 X10 Y-5\n")) :=
  claim_C4 92 true (lc "G0 X10 Y-5\n") (-5)
    (by with_unfolding_all decide)
    (by with_unfolding_all decide)
    (by with_unfolding_all decide)

/-- The object-start scan is `find?` of its guard followed by the
positional extraction. -/
theorem fosx_eq_find (lines : List (List Char)) :
    first_object_start_x lines =
      match lines.find? isObjStart with
      | none => .error .geometryNotFound
      | some l => extract_start_x l := by
  induction lines with
  | nil => rfl
  | cons l ls ih =>
    by_cases h1 : upperStartsWith l (lc "G1 X") = true
    · cases hY : findNum 'Y' false l with
      | none =>
        have hobj : isObjStart l = false := by simp [isObjStart, hY]
        simp [first_object_start_x, h1, hY, List.find?, hobj, ih]
      | some y =>
        by_cases hy : y > 0
        · have hobj : isObjStart l = true := by simp [isObjStart, h1, hY, hy]
          simp [first_object_start_x, h1, hY, hy, List.find?, hobj]
        · have hobj : isObjStart l = false := by simp [isObjStart, hY, hy]
          simp [first_object_start_x, h1, hY, hy, List.find?, hobj, ih]
    · have hobj : isObjStart l = false := by simp [isObjStart, h1]
      simp [first_object_start_x, h1, List.find?, hobj, ih]

/-- When no line satisfies the guard, the scan is the handled
coordinate-not-found failure. -/
theorem fosx_none {lines : List (List Char)}
    (h : ∀ l ∈ lines, isObjStart l = false) :
    first_object_start_x lines = .error .geometryNotFound := by
  rw [fosx_eq_find]
  have : lines.find? isObjStart = none := by
    rw [List.find?_eq_none]
    intro l hl
    simp [h l hl]
  rw [this]

/-- Claim C5: the geometry analyzer scans lines in order; it returns the
result of the positional extraction (second whitespace token, leading axis
letter stripped, parsed as a float) applied to the first line that starts
with `G1 X` (case-insensitively) and carries a positive Y coordinate, and
if no such line exists it fails with the coordinate-not-found condition. -/
theorem claim_C5 (lines : List (List Char)) :
    first_object_start_x lines =
      match lines.find? isObjStart with
      | none => .error .geometryNotFound
      | some l => extract_start_x l :=
  fosx_eq_find lines

/-- Claim C6: if no object-start line exists, the run fails with the
geometry-not-found error; an `.error` result of `runScript` is produced
before the single final write, so the file is never modified on any
failure path. -/
theorem claim_C6 (slot : ℕ) (lines : List (List Char))
    (h : ∀ l ∈ lines, isObjStart l = false) :
    runScript slot lines = .error .geometryNotFound := by
  simp [runScript, fosx_none h]

theorem claim_C6_witness :
    runScript 0 [lc "G0 X1 Y2\n"] = .error .geometryNotFound :=
  claim_C6 0 [lc "G0 X1 Y2\n"] (by with_unfolding_all decide)

/-- While no purge-entry line appears, the state stays Outside-Purge-Block
and every line gets the probe rewrite. -/
theorem processLines_no_entry (offset : ℚ) (reverse : Bool)
    (lines : List (List Char))
    (h : ∀ l ∈ lines, isPurgeEntry (pyStrip l) = false) :
    processLines offset reverse ⟨false, false⟩ lines
      = lines.map (probe_rewrite offset) := by
  induction lines with
  | nil => rfl
  | cons l ls ih =>
    have hstep : stepLine offset reverse ⟨false, false⟩ l =
        (⟨false, false⟩, probe_rewrite offset l) := by
      simp [stepLine, probe_rewrite, h l (by simp)]
    simp only [processLines, hstep, List.map_cons]
    exact congrArg _ (ih fun l' hl' => h l' (by simp [hl']))

/-- Claim C9: in a file with no `G0`-with-negative-Y line the state never
leaves Outside-Purge-Block, so (provided the object-start scan succeeds)
the run overwrites the file with every `G1`/`G29` line's X tokens shifted
by the offset and all other lines unchanged. -/
theorem claim_C9 (slot : ℕ) (lines : List (List Char)) (x : ℚ)
    (hNo : ∀ l ∈ lines, isPurgeEntry (pyStrip l) = false)
    (hx : first_object_start_x lines = .ok x) :
    runScript slot lines =
      .ok (lines.map (probe_rewrite ((slot : ℚ) * 46))) := by
  simp [runScript, hx, processLines_no_entry _ _ _ hNo]

theorem claim_C9_witness :
    runScript 1 [lc "G1 X5 Y2\n"] = .ok [lc "G1 X51.0 Y2\n"] := by
  rw [claim_C9 1 [lc "G1 X5 Y2\n"] 5 (by with_unfolding_all decide)
    (by with_unfolding_all decide)]
  with_unfolding_all decide

/-- Facts about the ten decimal digit characters, by enumeration. -/
theorem digit_char_facts : ∀ k : ℕ, k < 10 →
    (Char.ofNat (48 + k)).isDigit = true
    ∧ (Char.ofNat (48 + k)).toNat - 48 = k
    ∧ Char.toUpper (Char.ofNat (48 + k)) ≠ 'X'
    ∧ Char.ofNat (48 + k) ≠ '-'
    ∧ Char.ofNat (48 + k) ≠ '.'
    ∧ pyIsSpace (Char.ofNat (48 + k)) = false
    ∧ Char.ofNat (48 + k) ≠ '+' := by decide

/-- Every character of `natStrAux` is a decimal digit character. -/
theorem natStrAux_digit : ∀ (fuel n : ℕ), ∀ c ∈ natStrAux fuel n,
    ∃ k, k < 10 ∧ c = Char.ofNat (48 + k) := by
  intro fuel
  induction fuel with
  | zero =>
    intro n c hc
    simp only [natStrAux, List.mem_singleton] at hc
    exact ⟨n % 10, Nat.mod_lt _ (by norm_num), hc⟩
  | succ m ih =>
    intro n c hc
    simp only [natStrAux] at hc
    split at hc
    · simp only [List.mem_singleton] at hc
      exact ⟨n, by assumption, hc⟩
    · rw [List.mem_append] at hc
      rcases hc with hc | hc
      · exact ih _ c hc
      · simp only [List.mem_singleton] at hc
        exact ⟨n % 10, Nat.mod_lt _ (by norm_num), hc⟩

theorem natStrAux_ne_nil (fuel n : ℕ) : natStrAux fuel n ≠ [] := by
  cases fuel with
  | zero => simp [natStrAux]
  | succ m =>
    simp only [natStrAux]
    split <;> simp

theorem natStr_ne_nil (n : ℕ) : natStr n ≠ [] := natStrAux_ne_nil n n

/-- Every character of `natStr` is a digit. -/
theorem natStr_isDigit (n : ℕ) : ∀ c ∈ natStr n, Char.isDigit c = true := by
  intro c hc
  obtain ⟨k, hk, hck⟩ := natStrAux_digit n n c hc
  subst hck
  exact (digit_char_facts k hk).1

theorem digitsToNat_append_singleton (xs : List Char) (c : Char) :
    digitsToNat (xs ++ [c]) = 10 * digitsToNat xs + (c.toNat - 48) := by
  simp [digitsToNat, List.foldl_append]

/-- `natStrAux` is a correct decimal rendering whenever the fuel suffices. -/
theorem digitsToNat_natStrAux : ∀ (fuel n : ℕ), n ≤ fuel →
    digitsToNat (natStrAux fuel n) = n := by
  intro fuel
  induction fuel with
  | zero =>
    intro n hn
    have hn0 : n = 0 := Nat.le_zero.mp hn
    subst hn0
    decide
  | succ m ih =>
    intro n hn
    by_cases h10 : n < 10
    · simp only [natStrAux, if_pos h10]
      have hv := (digit_char_facts n h10).2.1
      simp [digitsToNat, hv]
    · simp only [natStrAux, if_neg h10]
      rw [digitsToNat_append_singleton]
      have hle : n / 10 ≤ m := by
        have h1 : n / 10 < n := Nat.div_lt_self (by omega) (by norm_num)
        omega
      rw [ih _ hle]
      have hv := (digit_char_facts (n % 10) (Nat.mod_lt _ (by norm_num))).2.1
      rw [hv]
      omega

theorem digitsToNat_natStr (n : ℕ) : digitsToNat (natStr n) = n :=
  digitsToNat_natStrAux n n le_rfl

/-- `takeWhile` walks through a prefix on which the predicate holds. -/
theorem takeWhile_append_all {p : Char → Bool} :
    ∀ {xs : List Char}, (∀ c ∈ xs, p c = true) →
      ∀ ys, (xs ++ ys).takeWhile p = xs ++ ys.takeWhile p := by
  intro xs
  induction xs with
  | nil => intro _ ys; simp
  | cons c t ih =>
    intro h ys
    simp only [List.cons_append, List.takeWhile_cons,
      h c (List.mem_cons_self _ _), if_true]
    rw [ih (fun c' hc' => h c' (List.mem_cons_of_mem _ hc')) ys]

/-- `dropWhile` skips a prefix on which the predicate holds. -/
theorem dropWhile_append_all {p : Char → Bool} :
    ∀ {xs : List Char}, (∀ c ∈ xs, p c = true) →
      ∀ ys, (xs ++ ys).dropWhile p = ys.dropWhile p := by
  intro xs
  induction xs with
  | nil => intro _ ys; simp
  | cons c t ih =>
    intro h ys
    simp only [List.cons_append, List.dropWhile_cons,
      h c (List.mem_cons_self _ _), if_true]
    exact ih (fun c' hc' => h c' (List.mem_cons_of_mem _ hc')) ys

/-- `subXAux` does not depend on the fuel once the fuel covers the input
length. -/
theorem subXAux_fuel_eq (f : ℚ → List Char) :
    ∀ (f₁ f₂ : ℕ) (b : Bool) (l : List Char), l.length ≤ f₁ → l.length ≤ f₂ →
      subXAux f f₁ b l = subXAux f f₂ b l := by
  intro f₁
  induction f₁ with
  | zero =>
    intro f₂ b l h1 _
    have hl : l = [] := List.length_eq_zero.mp (Nat.le_zero.mp h1)
    subst hl
    cases f₂ <;> rfl
  | succ n ih =>
    intro f₂ b l h1 h2
    cases l with
    | nil => cases f₂ <;> rfl
    | cons c rest =>
      cases f₂ with
      | zero => simp at h2
      | succ m =>
        simp only [List.length_cons, Nat.succ_le_succ_iff] at h1 h2
        simp only [subXAux]
        split
        · cases hm : matchNumTail rest with
          | some p =>
            obtain ⟨v, w, r⟩ := p
            have hr := matchNumTail_length_le hm
            simp only [ih m w r (le_trans hr h1) (le_trans hr h2),
              ih m true rest h1 h2]
          | none =>
            simp only [ih m (isWordChar c) rest h1 h2]
        · rw [ih m (isWordChar c) rest h1 h2]

/-- A string without `X`/`x` passes through the substitution unchanged. -/
theorem subXAux_noX (f : ℚ → List Char) :
    ∀ (cs : List Char) (b : Bool), (∀ c ∈ cs, Char.toUpper c ≠ 'X') →
      subXAux f cs.length b cs = cs := by
  intro cs
  induction cs with
  | nil => intro b _; rfl
  | cons c t ih =>
    intro b h
    simp only [List.length_cons, subXAux]
    rw [if_neg]
    · rw [ih (isWordChar c) (fun c' hc' => h c' (List.mem_cons_of_mem _ hc'))]
    · rintro ⟨hX, -⟩
      exact h c (List.mem_cons_self _ _) hX

/-- The substitution walks past an `X`-free prefix, updating the word-
boundary state. -/
theorem subXAux_append_noX (f : ℚ → List Char) :
    ∀ (cs : List Char), (∀ c ∈ cs, Char.toUpper c ≠ 'X') →
      ∀ (b : Bool) (ds : List Char),
        subXAux f (cs ++ ds).length b (cs ++ ds)
          = cs ++ subXAux f ds.length (wordAfter b cs) ds := by
  intro cs
  induction cs with
  | nil => intro _ b ds; simp [wordAfter]
  | cons c t ih =>
    intro h b ds
    simp only [List.cons_append, List.length_cons, subXAux, wordAfter]
    rw [if_neg]
    · simp only [List.append_eq]
      rw [ih (fun c' hc' => h c' (List.mem_cons_of_mem _ hc')) (isWordChar c) ds]
    · rintro ⟨hX, -⟩
      exact h c (List.mem_cons_self _ _) hX

/-- At a matching `X` with a boundary, the substitution emits the
replacement and continues after the matched number. -/
theorem subXAux_match (f : ℚ → List Char) {t rest : List Char} {v : ℚ}
    {w : Bool} (hm : matchNumTail (t ++ rest) = some (v, w, rest)) :
    subXAux f ('X' :: (t ++ rest)).length false ('X' :: (t ++ rest))
      = f v ++ subXAux f rest.length w rest := by
  simp only [List.length_cons, subXAux]
  rw [if_pos ⟨by decide, trivial⟩]
  simp only [hm]
  congr 1
  exact subXAux_fuel_eq f (t ++ rest).length rest.length w rest
    (by simp) le_rfl

/-- Matching `-?\d+\.?\d*` against a decimal token `natStr a ++ "." ++ fs`
followed by a non-digit remainder. -/
theorem matchNumTail_decToken (a : ℕ) (fs rest : List Char)
    (hfs : ∀ c ∈ fs, c.isDigit = true)
    (hrest : rest.takeWhile Char.isDigit = []) :
    matchNumTail ((natStr a ++ '.' :: fs) ++ rest)
      = some ((a : ℚ) + fracVal fs, !fs.isEmpty, rest) := by
  have hnd := natStr_isDigit a
  have hdrop_rest : rest.dropWhile Char.isDigit = rest := by
    have h2 := List.takeWhile_append_dropWhile (p := Char.isDigit) (l := rest)
    rw [hrest] at h2
    simpa using h2
  have hassoc : (natStr a ++ '.' :: fs) ++ rest
      = natStr a ++ ('.' :: (fs ++ rest)) := by
    simp [List.append_assoc]
  rw [hassoc]
  have hds : (natStr a ++ ('.' :: (fs ++ rest))).takeWhile Char.isDigit
      = natStr a := by
    rw [takeWhile_append_all hnd]
    simp [List.takeWhile_cons]
  have hr1 : (natStr a ++ ('.' :: (fs ++ rest))).dropWhile Char.isDigit
      = '.' :: (fs ++ rest) := by
    rw [dropWhile_append_all hnd]
    simp [List.dropWhile_cons]
  have hfs2 : (fs ++ rest).takeWhile Char.isDigit = fs := by
    rw [takeWhile_append_all hfs, hrest, List.append_nil]
  have hfs3 : (fs ++ rest).dropWhile Char.isDigit = rest := by
    rw [dropWhile_append_all hfs, hdrop_rest]
  have hne : (natStr a).isEmpty = false := by
    cases hnn : natStr a with
    | nil => exact absurd hnn (natStr_ne_nil a)
    | cons _ _ => rfl
  have hhead : (natStr a ++ ('.' :: (fs ++ rest))).head? ≠ some '-' := by
    obtain ⟨c0, t0, h0⟩ := List.exists_cons_of_ne_nil (natStr_ne_nil a)
    rw [h0]
    simp only [List.cons_append, List.head?_cons]
    intro hcontra
    have hc0 : c0 ∈ natStr a := by
      rw [h0]; exact List.mem_cons_self _ _
    obtain ⟨k, hk, hck⟩ := natStrAux_digit a a c0 hc0
    apply (digit_char_facts k hk).2.2.2.1
    rw [← hck]
    exact Option.some.inj hcontra
  unfold matchNumTail
  rw [if_neg hhead]
  simp only [mntBody, hds, hr1, hne, Bool.false_eq_true, if_false,
    List.head?_cons, List.tail_cons, hfs2, hfs3, digitsToNat_natStr, if_true]

/-- Rounding an integer-valued rational is the identity. -/
theorem rheInt_intCast (k : ℤ) : rheInt (k : ℚ) = k := by
  unfold rheInt
  norm_num [Int.floor_intCast]

/-- Formatting after `round(_, 1)` renders exactly the rounded tenths. -/
theorem fmt1_pyRound1 (z : ℚ) :
    fmt1 (pyRound1 z) = renderTenths (rheInt (z * 10)) := by
  unfold fmt1 pyRound1
  congr 1
  rw [div_mul_cancel₀ _ (by norm_num : (10 : ℚ) ≠ 0)]
  exact rheInt_intCast _

theorem dropWhile_all_false {p : Char → Bool} {l : List Char}
    (h : ∀ c ∈ l, p c = false) : l.dropWhile p = l := by
  cases l with
  | nil => rfl
  | cons c t => simp [List.dropWhile_cons, h c (List.mem_cons_self _ _)]

/-- `strip()` is the identity on whitespace-free strings. -/
theorem pyStrip_no_space {l : List Char} (h : ∀ c ∈ l, pyIsSpace c = false) :
    pyStrip l = l := by
  unfold pyStrip
  rw [dropWhile_all_false h,
    dropWhile_all_false (fun c hc => h c (List.mem_reverse.mp hc)),
    List.reverse_reverse]

theorem renderTenths_no_space (n : ℤ) :
    ∀ c ∈ renderTenths n, pyIsSpace c = false := by
  intro c hc
  unfold renderTenths at hc
  simp only [List.mem_append, List.mem_cons, List.mem_singleton] at hc
  rcases hc with (hc | hc) | hc | hc | hc
  · split at hc
    · simp only [List.mem_singleton] at hc
      subst hc
      decide
    · simp at hc
  · obtain ⟨k, hk, hck⟩ := natStrAux_digit _ _ c hc
    subst hck
    exact (digit_char_facts k hk).2.2.2.2.2.1
  · subst hc
    decide
  · subst hc
    exact (digit_char_facts _ (Nat.mod_lt _ (by norm_num))).2.2.2.2.2.1
  · simp at hc

/-- Parsing back a rendered number of tenths gives exactly that value:
`float(f"{n/10}") = n/10`. -/
theorem pyFloat?_renderTenths (n : ℤ) :
    pyFloat? (renderTenths n) = some ((n : ℚ) / 10) := by
  have hstrip := pyStrip_no_space (renderTenths_no_space n)
  obtain ⟨c0, t0, h0⟩ :=
    List.exists_cons_of_ne_nil (natStr_ne_nil (n.natAbs / 10))
  have hc0mem : c0 ∈ natStr (n.natAbs / 10) := by
    rw [h0]
    exact List.mem_cons_self _ _
  obtain ⟨k0, hk0, hck0⟩ :=
    natStrAux_digit (n.natAbs / 10) (n.natAbs / 10) c0 hc0mem
  have hc0m : c0 ≠ '-' := by
    rw [hck0]
    exact (digit_char_facts k0 hk0).2.2.2.1
  have hc0p : c0 ≠ '+' := by
    rw [hck0]
    exact (digit_char_facts k0 hk0).2.2.2.2.2.2
  have hd10 : n.natAbs % 10 < 10 := Nat.mod_lt _ (by norm_num)
  have hdd : (Char.ofNat (48 + n.natAbs % 10)).isDigit = true :=
    (digit_char_facts _ hd10).1
  have hbody_head : (natStr (n.natAbs / 10)
      ++ '.' :: [Char.ofNat (48 + n.natAbs % 10)]).head? = some c0 := by
    rw [h0]
    rfl
  have hds : (natStr (n.natAbs / 10)
      ++ '.' :: [Char.ofNat (48 + n.natAbs % 10)]).takeWhile Char.isDigit
      = natStr (n.natAbs / 10) := by
    rw [takeWhile_append_all (natStr_isDigit _)]
    simp [List.takeWhile_cons]
  have hr1 : (natStr (n.natAbs / 10)
      ++ '.' :: [Char.ofNat (48 + n.natAbs % 10)]).dropWhile Char.isDigit
      = '.' :: [Char.ofNat (48 + n.natAbs % 10)] := by
    rw [dropWhile_append_all (natStr_isDigit _)]
    simp [List.dropWhile_cons]
  have hne : (natStr (n.natAbs / 10)).isEmpty = false := by
    cases hnn : natStr (n.natAbs / 10) with
    | nil => exact absurd hnn (natStr_ne_nil _)
    | cons _ _ => rfl
  have htw : ([Char.ofNat (48 + n.natAbs % 10)].takeWhile Char.isDigit)
      = [Char.ofNat (48 + n.natAbs % 10)] := by
    simp [List.takeWhile_cons, hdd]
  have hdw : ([Char.ofNat (48 + n.natAbs % 10)].dropWhile Char.isDigit)
      = [] := by
    simp [List.dropWhile_cons, hdd]
  have hfv : fracVal [Char.ofNat (48 + n.natAbs % 10)]
      = ((n.natAbs % 10 : ℕ) : ℚ) / 10 := by
    simp [fracVal, digitsToNat, (digit_char_facts _ hd10).2.1]
  have harith : ((n.natAbs / 10 : ℕ) : ℚ) + ((n.natAbs % 10 : ℕ) : ℚ) / 10
      = ((n.natAbs : ℕ) : ℚ) / 10 := by
    field_simp
    norm_cast
    omega
  by_cases hneg : n < 0
  · have hrt : renderTenths n
        = '-' :: (natStr (n.natAbs / 10)
            ++ '.' :: [Char.ofNat (48 + n.natAbs % 10)]) := by
      unfold renderTenths
      rw [if_pos hneg]
      rfl
    have hcast : ((n.natAbs : ℕ) : ℚ) = -(n : ℚ) := by
      have h2 : (n.natAbs : ℤ) = -n := by omega
      have h3 : ((n.natAbs : ℕ) : ℚ) = ((n.natAbs : ℤ) : ℚ) := (Int.cast_natCast _).symm
      rw [h3, h2]
      push_cast
      ring
    rw [hrt] at hstrip ⊢
    simp only [pyFloat?]
    rw [hstrip]
    simp [hds, hr1, hne, htw, hdw, hfv, digitsToNat_natStr]
    linarith [harith, hcast]
  · have hrt : renderTenths n
        = natStr (n.natAbs / 10) ++ '.' :: [Char.ofNat (48 + n.natAbs % 10)] := by
      unfold renderTenths
      rw [if_neg hneg]
      rfl
    have hcast : ((n.natAbs : ℕ) : ℚ) = (n : ℚ) := by
      have h2 : (n.natAbs : ℤ) = n := by omega
      have h3 : ((n.natAbs : ℕ) : ℚ) = ((n.natAbs : ℤ) : ℚ) := (Int.cast_natCast _).symm
      rw [h3, h2]
    rw [hrt] at hstrip ⊢
    simp only [pyFloat?]
    rw [hstrip]
    simp [hbody_head, hc0m, hc0p, hds, hr1, hne, htw, hdw, hfv,
      digitsToNat_natStr]
    linarith [harith, hcast]

/-- The numeric content of a `shift_x` replacement: parsing the rendered
token back yields `round(v + offset, 1)`. -/
theorem shift_x_value (offset v : ℚ) :
    pyFloat? ((shift_x offset v).drop 1) = some (pyRound1 (v + offset)) := by
  unfold shift_x
  rw [List.drop_one, List.tail_cons, fmt1_pyRound1, pyFloat?_renderTenths]
  unfold pyRound1
  rfl

/-- The numeric content of a `shift_flip_x` replacement. -/
theorem shift_flip_x_value (offset : ℚ) (rev : Bool) (v : ℚ) :
    pyFloat? ((shift_flip_x offset rev v).drop 1)
      = some (if rev then pyRound1 (offset + 66 - v)
              else pyRound1 (v + offset)) := by
  cases rev
  · simpa using shift_x_value offset v
  · simp only [shift_flip_x, if_pos rfl, if_pos]
    rw [List.drop_one, List.tail_cons, fmt1_pyRound1, pyFloat?_renderTenths]
    rfl

/-- Matching `-?\d+\.?\d*` against a plain integer token `natStr a`
followed by a remainder that starts with neither a digit nor a dot. -/
theorem matchNumTail_intToken (a : ℕ) (rest : List Char)
    (hrest : rest.takeWhile Char.isDigit = [])
    (hdot : rest.head? ≠ some '.') :
    matchNumTail (natStr a ++ rest) = some ((a : ℚ), true, rest) := by
  have hnd := natStr_isDigit a
  have hdrop_rest : rest.dropWhile Char.isDigit = rest := by
    have h2 := List.takeWhile_append_dropWhile (p := Char.isDigit) (l := rest)
    rw [hrest] at h2
    simpa using h2
  have hds : (natStr a ++ rest).takeWhile Char.isDigit = natStr a := by
    rw [takeWhile_append_all hnd, hrest, List.append_nil]
  have hr1 : (natStr a ++ rest).dropWhile Char.isDigit = rest := by
    rw [dropWhile_append_all hnd, hdrop_rest]
  have hne : (natStr a).isEmpty = false := by
    cases hnn : natStr a with
    | nil => exact absurd hnn (natStr_ne_nil a)
    | cons _ _ => rfl
  have hhead : (natStr a ++ rest).head? ≠ some '-' := by
    obtain ⟨c0, t0, h0⟩ := List.exists_cons_of_ne_nil (natStr_ne_nil a)
    rw [h0]
    simp only [List.cons_append, List.head?_cons]
    intro hcontra
    have hc0 : c0 ∈ natStr a := by
      rw [h0]; exact List.mem_cons_self _ _
    obtain ⟨k, hk, hck⟩ := natStrAux_digit a a c0 hc0
    apply (digit_char_facts k hk).2.2.2.1
    rw [← hck]
    exact Option.some.inj hcontra
  unfold matchNumTail
  rw [if_neg hhead]
  simp only [mntBody, hds, hr1, hne, Bool.false_eq_true, if_false,
    digitsToNat_natStr]
  rw [if_neg hdot]

/-- Claim C3: (1) the substitution rewrites every `X` token of a line
independently — on a line with two decimal tokens, and likewise (2) on a
line with two integer tokens, both are replaced by the image of their
value under the active replacement function (`shift_x` under rule 2 and
the forward case of rule 3, `shift_flip_x` under rule 3); (3) the value
rendered by `shift_x` is exactly `round(v + offset, 1)`, and (4) the value
rendered by `shift_flip_x` is `round(offset + 66 - v, 1)` when the
direction flag is set, else `round(v + offset, 1)`. -/
theorem claim_C3 (offset : ℚ) (a b : ℕ) (fs gs : List Char)
    (hfs : ∀ c ∈ fs, c.isDigit = true) (hgs : ∀ c ∈ gs, c.isDigit = true) :
    (∀ f : ℚ → List Char,
      x_sub f (lc "G1 " ++ ('X' :: ((natStr a ++ '.' :: fs)
          ++ (' ' :: ('X' :: ((natStr b ++ '.' :: gs) ++ lc " F900\n"))))))
        = lc "G1 " ++ (f ((a : ℚ) + fracVal fs)
            ++ (' ' :: (f ((b : ℚ) + fracVal gs) ++ lc " F900\n"))))
    ∧ (∀ f : ℚ → List Char,
      x_sub f (lc "G0 " ++ ('X' :: (natStr a
          ++ (' ' :: ('X' :: (natStr b ++ lc " Y-5\n"))))))
        = lc "G0 " ++ (f (a : ℚ) ++ (' ' :: (f (b : ℚ) ++ lc " Y-5\n"))))
    ∧ (∀ v : ℚ,
        pyFloat? ((shift_x offset v).drop 1) = some (pyRound1 (v + offset)))
    ∧ (∀ (rev : Bool) (v : ℚ),
        pyFloat? ((shift_flip_x offset rev v).drop 1)
          = some (if rev then pyRound1 (offset + 66 - v)
                  else pyRound1 (v + offset))) := by
  have hw2 : ∀ bb : Bool, wordAfter bb [' '] = false := by decide
  refine ⟨?_, ?_, fun v => shift_x_value offset v,
    fun rev v => shift_flip_x_value offset rev v⟩
  · intro f
    have hrest₁ : (' ' :: ('X' :: ((natStr b ++ '.' :: gs)
        ++ lc " F900\n"))).takeWhile Char.isDigit = [] := by
      rw [List.takeWhile_cons, if_neg (by decide)]
    have hTd : (lc " F900\n").takeWhile Char.isDigit = [] := by decide
    have hm₁ := matchNumTail_decToken a fs
      (' ' :: ('X' :: ((natStr b ++ '.' :: gs) ++ lc " F900\n"))) hfs hrest₁
    have hm₂ := matchNumTail_decToken b gs (lc " F900\n") hgs hTd
    unfold x_sub
    rw [subXAux_append_noX f (lc "G1 ") (by decide) false _]
    rw [show wordAfter false (lc "G1 ") = false from by decide]
    rw [subXAux_match f hm₁]
    rw [show (' ' :: ('X' :: ((natStr b ++ '.' :: gs) ++ lc " F900\n")))
        = [' '] ++ ('X' :: ((natStr b ++ '.' :: gs) ++ lc " F900\n")) from rfl]
    rw [subXAux_append_noX f [' '] (by decide) _ _, hw2]
    rw [subXAux_match f hm₂]
    rw [subXAux_noX f (lc " F900\n") (!gs.isEmpty) (by decide)]
    rfl
  · intro f
    have hrest₁ : (' ' :: ('X' :: (natStr b
        ++ lc " Y-5\n"))).takeWhile Char.isDigit = [] := by
      rw [List.takeWhile_cons, if_neg (by decide)]
    have hTd : (lc " Y-5\n").takeWhile Char.isDigit = [] := by decide
    have hm₁ := matchNumTail_intToken a
      (' ' :: ('X' :: (natStr b ++ lc " Y-5\n"))) hrest₁ (by simp)
    have hm₂ := matchNumTail_intToken b (lc " Y-5\n") hTd (by decide)
    unfold x_sub
    rw [subXAux_append_noX f (lc "G0 ") (by decide) false _]
    rw [show wordAfter false (lc "G0 ") = false from by decide]
    rw [subXAux_match f hm₁]
    rw [show (' ' :: ('X' :: (natStr b ++ lc " Y-5\n")))
        = [' '] ++ ('X' :: (natStr b ++ lc " Y-5\n")) from rfl]
    rw [subXAux_append_noX f [' '] (by decide) _ _, hw2]
    rw [subXAux_match f hm₂]
    rw [subXAux_noX f (lc " Y-5\n") true (by decide)]
    rfl

theorem claim_C3_witness :
    x_sub (shift_x 46) (lc "G1 " ++ ('X' :: ((natStr 1 ++ '.' :: ['5'])
        ++ (' ' :: ('X' :: ((natStr 2 ++ '.' :: ([] : List Char))
          ++ lc " F900\n"))))))
      = lc "G1 " ++ (shift_x 46 ((1 : ℚ) + fracVal ['5'])
          ++ (' ' :: (shift_x 46 ((2 : ℚ) + fracVal ([] : List Char))
            ++ lc " F900\n"))) :=
  (claim_C3 46 1 2 ['5'] [] (by decide) (by decide)).1 (shift_x 46)

/-- Claim C10: on the line `G1 X Y5` (which starts with `G1 X` and has a
positive Y) the positional extraction hits `float("")`, an unhandled error
distinct from the handled coordinate-not-found condition. -/
theorem claim_C10 :
    first_object_start_x [lc "G1 X Y5\n"] = .error .uncaughtExn
    ∧ ScriptError.uncaughtExn ≠ ScriptError.geometryNotFound := by
  with_unfolding_all decide

end PurgeShift
